import Mathlib

/-!
Verification of the pos-based-fluids repository against its specification.

The repository's `src/` tree contains the rendering and wgpu utility glue
(`lib.rs`, `render.rs`, `wgpu_utils.rs`).  The simulation core (grid
parameters, sort and collide kernels, step driver) is described by the
specification but its source file is not present in `src/`; those parts are
modelled here directly from the specification's wording, as marked on each
definition.  Continuous quantities (positions, velocities, radii) are
modelled over ℚ.
-/

namespace PBF

/-! ### Grid parameters (spec §4.1) -/

/-- Modelled from the spec: grid-parameter record, `cell_size` and per-axis
`n_cells` (the simulation core source is missing from src/). -/
structure GridParams where
  cell_size : ℚ
  n_cells : ℤ
deriving DecidableEq

/-- Modelled from the spec: pure function of radius and domain extent,
`cell_size = 2*radius`, `n_cells = floor (extent / cell_size)`
(the simulation core source is missing from src/). -/
def gridParams (radius extent : ℚ) : GridParams :=
  { cell_size := 2 * radius, n_cells := Int.floor (extent / (2 * radius)) }

/-- Modelled from the spec: total number of cells is `n_cells` squared. -/
def GridParams.totalCells (g : GridParams) : ℤ := g.n_cells * g.n_cells

/-! ### Sort kernel cell derivation (spec §4.4) -/

/-- Clamp an integer to the closed interval `[lo, hi]`. -/
def clampInt (x lo hi : ℤ) : ℤ := max lo (min x hi)

/-- Modelled from the spec: per-axis cell coordinate of the sort kernel,
`floor (position / cell_size)` clamped to `[0, n_cells - 1]`
(the sort kernel source is missing from src/). -/
def cellCoord (p : ℚ) (cellSize : ℚ) (nCells : ℕ) : ℤ :=
  clampInt (Int.floor (p / cellSize)) 0 ((nCells : ℤ) - 1)

/-- Modelled from the spec: linear cell index `c = cy * n_cells + cx`
(the sort kernel source is missing from src/). -/
def cellIndex (pos : ℚ × ℚ) (cellSize : ℚ) (nCells : ℕ) : ℤ :=
  cellCoord pos.2 cellSize nCells * (nCells : ℤ) + cellCoord pos.1 cellSize nCells

theorem clampInt_mem (x lo hi : ℤ) (h : lo ≤ hi) :
    lo ≤ clampInt x lo hi ∧ clampInt x lo hi ≤ hi := by
  unfold clampInt
  constructor
  · exact le_max_left _ _
  · exact max_le (by omega) (min_le_right _ _)

theorem cellCoord_bounds (p cellSize : ℚ) (nCells : ℕ) (h : 1 ≤ nCells) :
    0 ≤ cellCoord p cellSize nCells ∧ cellCoord p cellSize nCells ≤ (nCells : ℤ) - 1 := by
  unfold cellCoord
  refine clampInt_mem _ 0 _ ?_
  have : (1 : ℤ) ≤ (nCells : ℤ) := by exact_mod_cast h
  omega

theorem cellIndex_bounds (pos : ℚ × ℚ) (cellSize : ℚ) (nCells : ℕ) (h : 1 ≤ nCells) :
    0 ≤ cellIndex pos cellSize nCells ∧
      cellIndex pos cellSize nCells < (nCells : ℤ) * nCells := by
  obtain ⟨hx0, hx1⟩ := cellCoord_bounds pos.1 cellSize nCells h
  obtain ⟨hy0, hy1⟩ := cellCoord_bounds pos.2 cellSize nCells h
  unfold cellIndex
  constructor
  · have hn : (0 : ℤ) ≤ (nCells : ℤ) := by positivity
    nlinarith
  · nlinarith

/-- C1: for every particle position inside the unit domain, the sort kernel's
derived cell coordinate (floor of position over cell size, clamped) lies in
`[0, n_cells - 1]` on each axis, and the linear cell index is
`cy * n_cells + cx`. -/
theorem sort_cell_coord_in_range (pos : ℚ × ℚ) (cellSize : ℚ) (nCells : ℕ)
    (hn : 1 ≤ nCells) (hx0 : 0 ≤ pos.1) (hx1 : pos.1 ≤ 1)
    (hy0 : 0 ≤ pos.2) (hy1 : pos.2 ≤ 1) :
    (0 ≤ cellCoord pos.1 cellSize nCells ∧ cellCoord pos.1 cellSize nCells ≤ (nCells : ℤ) - 1) ∧
    (0 ≤ cellCoord pos.2 cellSize nCells ∧ cellCoord pos.2 cellSize nCells ≤ (nCells : ℤ) - 1) ∧
    cellIndex pos cellSize nCells =
      cellCoord pos.2 cellSize nCells * (nCells : ℤ) + cellCoord pos.1 cellSize nCells := by
  exact ⟨cellCoord_bounds pos.1 cellSize nCells hn, cellCoord_bounds pos.2 cellSize nCells hn, rfl⟩

/-- Witness for C1 at a concrete position and grid. -/
theorem sort_cell_coord_in_range_witness :
    (0 ≤ cellCoord (3/4 : ℚ) (1/2) 2 ∧ cellCoord (3/4 : ℚ) (1/2) 2 ≤ (2 : ℤ) - 1) ∧
    (0 ≤ cellCoord (1/4 : ℚ) (1/2) 2 ∧ cellCoord (1/4 : ℚ) (1/2) 2 ≤ (2 : ℤ) - 1) ∧
    cellIndex ((3/4 : ℚ), (1/4 : ℚ)) (1/2) 2 =
      cellCoord (1/4 : ℚ) (1/2) 2 * (2 : ℤ) + cellCoord (3/4 : ℚ) (1/2) 2 :=
  sort_cell_coord_in_range ((3/4 : ℚ), (1/4 : ℚ)) (1/2) 2 (by norm_num)
    (by norm_num) (by norm_num) (by norm_num) (by norm_num)

/-- C4: the grid-parameter computation is a pure function with
`cell_size = 2*radius` and `n_cells = floor (extent / cell_size)`, the total
cell count is `n_cells` squared, and the precondition `radius < extent / 2`
(with positive radius) gives `n_cells ≥ 1`. -/
theorem gridParams_spec (radius extent : ℚ) (hr : 0 < radius) (hre : radius < extent / 2) :
    (gridParams radius extent).cell_size = 2 * radius ∧
    (gridParams radius extent).n_cells =
      Int.floor (extent / (gridParams radius extent).cell_size) ∧
    (gridParams radius extent).totalCells =
      (gridParams radius extent).n_cells * (gridParams radius extent).n_cells ∧
    1 ≤ (gridParams radius extent).n_cells := by
  refine ⟨rfl, rfl, rfl, ?_⟩
  have h2r : 0 < 2 * radius := by linarith
  have h1 : (1 : ℚ) ≤ extent / (2 * radius) := by
    rw [le_div_iff₀ h2r]
    linarith
  exact Int.le_floor.mpr (by exact_mod_cast h1)

/-- Witness for C4 at radius 1/4 and unit extent. -/
theorem gridParams_spec_witness :
    (gridParams (1/4) 1).cell_size = 2 * (1/4) ∧
    (gridParams (1/4) 1).n_cells = Int.floor ((1 : ℚ) / (gridParams (1/4) 1).cell_size) ∧
    (gridParams (1/4) 1).totalCells =
      (gridParams (1/4) 1).n_cells * (gridParams (1/4) 1).n_cells ∧
    1 ≤ (gridParams (1/4) 1).n_cells :=
  gridParams_spec (1/4) 1 (by norm_num) (by norm_num)

/-! ### Collide kernel detection predicate (spec §4.5) -/

/-- Squared Euclidean distance between two points of the plane. -/
def sqDist (p q : ℚ × ℚ) : ℚ := (p.1 - q.1) ^ 2 + (p.2 - q.2) ^ 2

/-- Modelled from the spec: the narrow-phase overlap test, a collision exists
exactly when the distance is strictly below `2 * radius`; expressed on squared
distances to stay in ℚ (the collide kernel source is missing from src/). -/
def collides (p q : ℚ × ℚ) (radius : ℚ) : Bool :=
  decide (sqDist p q < (2 * radius) ^ 2)

/-- C3: a pair at distance `d` is flagged as colliding exactly when
`d < 2 * radius`; in particular separation exactly `2 * radius` is not
flagged and separation `2 * radius - ε` with `ε > 0` is. -/
theorem collides_iff_lt (p q : ℚ × ℚ) (radius d : ℚ)
    (hr : 0 ≤ radius) (hd : 0 ≤ d) (hsq : sqDist p q = d ^ 2) :
    collides p q radius = true ↔ d < 2 * radius := by
  unfold collides
  rw [decide_eq_true_iff, hsq]
  constructor
  · intro h
    nlinarith
  · intro h
    nlinarith

/-- Witness for C3: points at distance exactly `2 * radius` are not flagged. -/
theorem collides_iff_lt_witness :
    (collides ((0 : ℚ), (0 : ℚ)) ((1 : ℚ), (0 : ℚ)) (1/2) = true ↔ (1 : ℚ) < 2 * (1/2)) :=
  collides_iff_lt ((0 : ℚ), (0 : ℚ)) ((1 : ℚ), (0 : ℚ)) (1/2) 1
    (by norm_num) (by norm_num) (by norm_num [sqDist])

/-! ### Collision resolution (spec §4.5) -/

/-- Componentwise sum of two plane vectors. -/
def vadd (a b : ℚ × ℚ) : ℚ × ℚ := (a.1 + b.1, a.2 + b.2)

/-- Componentwise difference of two plane vectors. -/
def vsub (a b : ℚ × ℚ) : ℚ × ℚ := (a.1 - b.1, a.2 - b.2)

/-- Scalar multiple of a plane vector. -/
def smul (k : ℚ) (a : ℚ × ℚ) : ℚ × ℚ := (k * a.1, k * a.2)

/-- Negation of a plane vector. -/
def vneg (a : ℚ × ℚ) : ℚ × ℚ := (-a.1, -a.2)

/-- Dot product of two plane vectors. -/
def dot (a b : ℚ × ℚ) : ℚ := a.1 * b.1 + a.2 * b.2

/-- Modelled from the spec: the elastic equal-mass velocity exchange along the
line of centers, with `n` the unit normal from particle `j` to particle `i`;
the spec leaves the exact coefficients open and asks for a standard symmetric
elastic two-body update (the collide kernel source is missing from src/). -/
def resolveVelocity (vi vj n : ℚ × ℚ) : (ℚ × ℚ) × (ℚ × ℚ) :=
  let k := dot (vsub vi vj) n
  (vsub vi (smul k n), vadd vj (smul k n))

/-- Modelled from the spec: the symmetric positional correction separating the
pair along the center line by the overlap amount, half on each side
(the collide kernel source is missing from src/). -/
def resolvePosition (pi pj n : ℚ × ℚ) (overlap : ℚ) : (ℚ × ℚ) × (ℚ × ℚ) :=
  (vadd pi (smul (overlap / 2) n), vsub pj (smul (overlap / 2) n))

/-- C5: for a resolved two-particle collision with unit center-line normal
`n`, total momentum is preserved exactly, total kinetic energy is preserved
exactly (hence non-increasing), and the outcome is symmetric in the two
particles: resolving with the roles of `i` and `j` swapped (and the normal
reversed accordingly) swaps the two results, for velocities and positions. -/
theorem resolve_pair_conservation (vi vj n pi pj : ℚ × ℚ) (overlap : ℚ)
    (hn : dot n n = 1) :
    vadd (resolveVelocity vi vj n).1 (resolveVelocity vi vj n).2 = vadd vi vj ∧
    dot (resolveVelocity vi vj n).1 (resolveVelocity vi vj n).1 +
      dot (resolveVelocity vi vj n).2 (resolveVelocity vi vj n).2 =
      dot vi vi + dot vj vj ∧
    dot (resolveVelocity vi vj n).1 (resolveVelocity vi vj n).1 +
      dot (resolveVelocity vi vj n).2 (resolveVelocity vi vj n).2 ≤
      dot vi vi + dot vj vj ∧
    resolveVelocity vj vi (vneg n) =
      ((resolveVelocity vi vj n).2, (resolveVelocity vi vj n).1) ∧
    resolvePosition pj pi (vneg n) overlap =
      ((resolvePosition pi pj n overlap).2, (resolvePosition pi pj n overlap).1) := by
  simp only [dot] at hn
  have energy :
      dot (resolveVelocity vi vj n).1 (resolveVelocity vi vj n).1 +
        dot (resolveVelocity vi vj n).2 (resolveVelocity vi vj n).2 =
        dot vi vi + dot vj vj := by
    simp only [resolveVelocity, vadd, vsub, smul, dot]
    linear_combination
      (2 * ((vi.1 - vj.1) * n.1 + (vi.2 - vj.2) * n.2) ^ 2) * hn
  refine ⟨?_, energy, le_of_eq energy, ?_, ?_⟩
  · simp only [resolveVelocity, vadd, vsub, smul, dot, Prod.mk.injEq]
    constructor <;> ring
  · simp only [resolveVelocity, vadd, vsub, smul, vneg, dot, Prod.mk.injEq]
    refine ⟨⟨?_, ?_⟩, ?_, ?_⟩ <;> ring
  · simp only [resolvePosition, vadd, vsub, smul, vneg, Prod.mk.injEq]
    refine ⟨⟨?_, ?_⟩, ?_, ?_⟩ <;> ring

/-- Witness for C5 with the unit normal `(1, 0)` and concrete velocities. -/
theorem resolve_pair_conservation_witness :
    vadd (resolveVelocity (1, 2) (3, 4) (1, 0)).1 (resolveVelocity (1, 2) (3, 4) (1, 0)).2 =
      vadd (1, 2) (3, 4) ∧
    dot (resolveVelocity (1, 2) (3, 4) (1, 0)).1 (resolveVelocity (1, 2) (3, 4) (1, 0)).1 +
      dot (resolveVelocity (1, 2) (3, 4) (1, 0)).2 (resolveVelocity (1, 2) (3, 4) (1, 0)).2 =
      dot (1, 2) (1, 2) + dot (3, 4) (3, 4) ∧
    dot (resolveVelocity (1, 2) (3, 4) (1, 0)).1 (resolveVelocity (1, 2) (3, 4) (1, 0)).1 +
      dot (resolveVelocity (1, 2) (3, 4) (1, 0)).2 (resolveVelocity (1, 2) (3, 4) (1, 0)).2 ≤
      dot (1, 2) (1, 2) + dot (3, 4) (3, 4) ∧
    resolveVelocity (3, 4) (1, 2) (vneg (1, 0)) =
      ((resolveVelocity (1, 2) (3, 4) (1, 0)).2, (resolveVelocity (1, 2) (3, 4) (1, 0)).1) ∧
    resolvePosition (5, 6) (7, 8) (vneg (1, 0)) (1/4) =
      ((resolvePosition (7, 8) (5, 6) (1, 0) (1/4)).2,
        (resolvePosition (7, 8) (5, 6) (1, 0) (1/4)).1) :=
  resolve_pair_conservation (1, 2) (3, 4) (1, 0) (7, 8) (5, 6) (1/4) (by norm_num [dot])

/-! ### Scratch grid state and the CLEAR phase (spec §4.6) -/

/-- Modelled from the spec: the host-visible scratch state of one step, the
per-cell occupancy counters and the per-cell id slots, indexed linearly
(the step driver source is missing from src/). -/
structure GridState where
  counts : ℕ → ℕ
  ids : ℕ → ℤ

/-- Modelled from the spec: the cleared scratch state, counts zero and id
slots at the sentinel `-1` (the step driver source is missing from src/). -/
def clearState : GridState :=
  { counts := fun _ => 0, ids := fun _ => -1 }

/-- Modelled from the spec: the CLEAR phase, the host zeroes the scratch
count array and resets the id array to the sentinel `-1`
(the step driver source is missing from src/). -/
def clearOp (_st : GridState) : GridState := clearState

/-! ### Sort kernel bucketing (spec §4.4) -/

/-- Modelled from the spec: one sort-kernel iteration for particle index `i`
landing in cell `c`; the counter is incremented unconditionally, yielding the
previous value `slot`, and the id is written to `id[c * cap + slot]` only when
`slot < cap`, otherwise the particle is dropped with no error
(the sort kernel source is missing from src/). -/
def bucketInsert (cap : ℕ) (c : ℕ) (i : ℕ) (st : GridState) : GridState :=
  let slot := st.counts c
  if slot < cap then
    { counts := fun k => if k = c then slot + 1 else st.counts k,
      ids := fun k => if k = c * cap + slot then (i : ℤ) else st.ids k }
  else
    { counts := fun k => if k = c then slot + 1 else st.counts k,
      ids := st.ids }

/-- Modelled from the spec: the cell a particle is bucketed into, the linear
cell index as a natural number (the sort kernel source is missing from
src/). -/
def particleCell (cellSize : ℚ) (nCells : ℕ) (p : ℚ × ℚ) : ℕ :=
  (cellIndex p cellSize nCells).toNat

/-- Modelled from the spec: the sort kernel run sequentially over the
particle list starting at particle index `i` (slot order under concurrent
atomics is non-deterministic, which the spec accepts; the sequential order is
one admissible schedule). -/
def sortRun (cellSize : ℚ) (nCells cap : ℕ) : List (ℚ × ℚ) → ℕ → GridState → GridState
  | [], _, st => st
  | p :: ps, i, st =>
      sortRun cellSize nCells cap ps (i + 1)
        (bucketInsert cap (particleCell cellSize nCells p) i st)

/-- Modelled from the spec: one full sort (broad-phase) dispatch starting
from the cleared scratch state (the sort kernel source is missing from
src/). -/
def sortKernel (cellSize : ℚ) (nCells cap : ℕ) (ps : List (ℚ × ℚ)) : GridState :=
  sortRun cellSize nCells cap ps 0 clearState

/-- Number of non-sentinel id slots recorded in cell `c`'s bucket. -/
def recordedIds (st : GridState) (cap c : ℕ) : ℕ :=
  (List.range cap).countP (fun s => decide (st.ids (c * cap + s) ≠ -1))

/-- Number of particles of the list whose derived cell is `c`. -/
def cellOccupancy (cellSize : ℚ) (nCells : ℕ) (ps : List (ℚ × ℚ)) (c : ℕ) : ℕ :=
  ps.countP (fun p => decide (particleCell cellSize nCells p = c))

/-- Bucket invariant: inside the grid, a slot holds the sentinel exactly when
its index is at least the clamped counter, and no id slot outside the buffer
is ever written. -/
def BucketInv (n2 cap : ℕ) (st : GridState) : Prop :=
  (∀ c, c < n2 → ∀ s, s < cap →
      (st.ids (c * cap + s) = -1 ↔ min (st.counts c) cap ≤ s)) ∧
  (∀ k, n2 * cap ≤ k → st.ids k = -1)

theorem bucketInsert_counts (cap c0 i : ℕ) (st : GridState) (c : ℕ) :
    (bucketInsert cap c0 i st).counts c =
      if c = c0 then st.counts c + 1 else st.counts c := by
  unfold bucketInsert
  by_cases h : st.counts c0 < cap <;> by_cases hc : c = c0 <;> simp [h, hc]

theorem bucketInsert_ids (cap c0 i : ℕ) (st : GridState) (k : ℕ) :
    (bucketInsert cap c0 i st).ids k =
      if st.counts c0 < cap ∧ k = c0 * cap + st.counts c0 then (i : ℤ) else st.ids k := by
  unfold bucketInsert
  by_cases h : st.counts c0 < cap <;> by_cases hk : k = c0 * cap + st.counts c0 <;>
    simp [h, hk]

theorem slot_index_lt (n2 cap c s : ℕ) (hc : c < n2) (hs : s < cap) :
    c * cap + s < n2 * cap := by
  have h1 : (c + 1) * cap ≤ n2 * cap := Nat.mul_le_mul_right cap hc
  rw [Nat.succ_mul] at h1
  linarith

theorem slot_index_ne (c d s t cap : ℕ) (hs : s < cap) (ht : t < cap) (hcd : c ≠ d) :
    c * cap + s ≠ d * cap + t := by
  rcases lt_or_gt_of_ne hcd with h | h
  · intro he
    have h1 : (c + 1) * cap ≤ d * cap := Nat.mul_le_mul_right cap h
    rw [Nat.succ_mul] at h1
    linarith
  · intro he
    have h1 : (d + 1) * cap ≤ c * cap := Nat.mul_le_mul_right cap h
    rw [Nat.succ_mul] at h1
    linarith

theorem bucketInsert_inv (n2 cap c0 i : ℕ) (st : GridState) (hc0 : c0 < n2)
    (h : BucketInv n2 cap st) : BucketInv n2 cap (bucketInsert cap c0 i st) := by
  obtain ⟨h1, h2⟩ := h
  constructor
  · intro c hc s hs
    rw [bucketInsert_ids, bucketInsert_counts]
    by_cases hcc : c = c0
    · subst hcc
      rw [if_pos rfl]
      by_cases hslot : st.counts c < cap
      · by_cases hss : s = st.counts c
        · subst hss
          rw [if_pos ⟨hslot, rfl⟩]
          omega
        · have hne : c * cap + s ≠ c * cap + st.counts c := fun he =>
            hss (Nat.add_left_cancel he)
          rw [if_neg (fun hh => hne hh.2)]
          rw [h1 c hc s hs]
          omega
      · rw [if_neg (fun hh => hslot hh.1)]
        rw [h1 c hc s hs]
        omega
    · rw [if_neg hcc]
      by_cases hslot : st.counts c0 < cap
      · have hne : c * cap + s ≠ c0 * cap + st.counts c0 :=
          slot_index_ne c c0 s (st.counts c0) cap hs hslot hcc
        rw [if_neg (fun hh => hne hh.2)]
        exact h1 c hc s hs
      · rw [if_neg (fun hh => hslot hh.1)]
        exact h1 c hc s hs
  · intro k hk
    rw [bucketInsert_ids]
    by_cases hslot : st.counts c0 < cap
    · have hlt : c0 * cap + st.counts c0 < n2 * cap :=
        slot_index_lt n2 cap c0 (st.counts c0) hc0 hslot
      -- the written slot lies strictly inside the buffer, so k is untouched
      have hne : k ≠ c0 * cap + st.counts c0 := by
        intro he
        rw [he] at hk
        exact absurd hk (not_le.mpr hlt)
      rw [if_neg (fun hh => hne hh.2)]
      exact h2 k hk
    · rw [if_neg (fun hh => hslot hh.1)]
      exact h2 k hk

theorem particleCell_lt (cellSize : ℚ) (nCells : ℕ) (p : ℚ × ℚ) (hn : 1 ≤ nCells) :
    particleCell cellSize nCells p < nCells * nCells := by
  obtain ⟨h0, hlt⟩ := cellIndex_bounds p cellSize nCells hn
  have hm : ((nCells * nCells : ℕ) : ℤ) = (nCells : ℤ) * nCells := by push_cast; ring
  rw [← hm] at hlt
  unfold particleCell
  generalize hg : nCells * nCells = m at hlt ⊢
  omega

theorem sortRun_inv (cellSize : ℚ) (nCells cap : ℕ) (hn : 1 ≤ nCells) :
    ∀ (ps : List (ℚ × ℚ)) (i : ℕ) (st : GridState),
      BucketInv (nCells * nCells) cap st →
      BucketInv (nCells * nCells) cap (sortRun cellSize nCells cap ps i st) := by
  intro ps
  induction ps with
  | nil => intro i st h; exact h
  | cons p ps ih =>
      intro i st h
      exact ih (i + 1) _
        (bucketInsert_inv (nCells * nCells) cap (particleCell cellSize nCells p) i st
          (particleCell_lt cellSize nCells p hn) h)

theorem sortRun_counts (cellSize : ℚ) (nCells cap : ℕ) :
    ∀ (ps : List (ℚ × ℚ)) (i : ℕ) (st : GridState) (c : ℕ),
      (sortRun cellSize nCells cap ps i st).counts c =
        st.counts c + ps.countP (fun p => decide (particleCell cellSize nCells p = c)) := by
  intro ps
  induction ps with
  | nil => intro i st c; simp [sortRun]
  | cons p ps ih =>
      intro i st c
      rw [sortRun, ih, bucketInsert_counts, List.countP_cons]
      by_cases h : particleCell cellSize nCells p = c
      · simp [h]
        omega
      · have h' : ¬ (c = particleCell cellSize nCells p) := fun he => h he.symm
        simp [h, h']

theorem clearState_inv (n2 cap : ℕ) : BucketInv n2 cap clearState := by
  constructor
  · intro c _ s _
    simp [clearState]
  · intro k _
    rfl

theorem countP_range_lt (cap m : ℕ) :
    (List.range cap).countP (fun s => decide (s < m)) = min m cap := by
  induction cap with
  | zero => simp
  | succ n ih =>
      rw [List.range_succ, List.countP_append, ih, List.countP_cons]
      by_cases h : n < m <;> simp [h] <;> omega

theorem recordedIds_le (st : GridState) (cap c : ℕ) : recordedIds st cap c ≤ cap := by
  unfold recordedIds
  exact le_trans (List.countP_le_length _) (by simp)

theorem recordedIds_eq_min (st : GridState) (cap c : ℕ)
    (h : ∀ s, s < cap → (st.ids (c * cap + s) = -1 ↔ min (st.counts c) cap ≤ s)) :
    recordedIds st cap c = min (st.counts c) cap := by
  unfold recordedIds
  have hcongr : ∀ s ∈ List.range cap,
      (decide (st.ids (c * cap + s) ≠ -1) = true ↔
        decide (s < min (st.counts c) cap) = true) := by
    intro s hs
    rw [List.mem_range] at hs
    simp only [decide_eq_true_eq]
    rw [← not_le]
    exact not_congr (h s hs)
  rw [List.countP_congr hcongr, countP_range_lt]
  omega

/-- C2 (amended): after the sort kernel runs, each in-grid cell's bucket
records at most `cap` ids, the number of recorded ids equals the counter
clamped to capacity, the per-cell counter equals the number of particles
mapping to that cell (so it can exceed capacity), slots at or beyond the
clamped counter hold the sentinel `-1`, no id slot outside the buffer is
ever written, and when more than `cap` particles map to one cell exactly
`cap` ids are recorded with the excess dropped and no error raised. -/
theorem sort_bucket_safety (cellSize : ℚ) (nCells cap : ℕ) (ps : List (ℚ × ℚ))
    (hn : 1 ≤ nCells) :
    (∀ c, c < nCells * nCells →
      recordedIds (sortKernel cellSize nCells cap ps) cap c ≤ cap) ∧
    (∀ c, c < nCells * nCells →
      recordedIds (sortKernel cellSize nCells cap ps) cap c =
        min ((sortKernel cellSize nCells cap ps).counts c) cap) ∧
    (∀ c, (sortKernel cellSize nCells cap ps).counts c =
      cellOccupancy cellSize nCells ps c) ∧
    (∀ c, c < nCells * nCells → ∀ s, s < cap →
      min ((sortKernel cellSize nCells cap ps).counts c) cap ≤ s →
      (sortKernel cellSize nCells cap ps).ids (c * cap + s) = -1) ∧
    (∀ k, nCells * nCells * cap ≤ k →
      (sortKernel cellSize nCells cap ps).ids k = -1) ∧
    (∀ c, c < nCells * nCells → cap < cellOccupancy cellSize nCells ps c →
      recordedIds (sortKernel cellSize nCells cap ps) cap c = cap) := by
  have hinv : BucketInv (nCells * nCells) cap (sortKernel cellSize nCells cap ps) :=
    sortRun_inv cellSize nCells cap hn ps 0 clearState (clearState_inv _ _)
  obtain ⟨h1, h2⟩ := hinv
  have hcounts : ∀ c, (sortKernel cellSize nCells cap ps).counts c =
      cellOccupancy cellSize nCells ps c := by
    intro c
    rw [sortKernel, sortRun_counts]
    simp [clearState, cellOccupancy]
  refine ⟨fun c _ => recordedIds_le _ _ _,
    fun c hc => recordedIds_eq_min _ _ _ (h1 c hc), hcounts, ?_, h2, ?_⟩
  · intro c hc s hs hmin
    exact (h1 c hc s hs).mpr hmin
  · intro c hc hover
    rw [recordedIds_eq_min _ _ _ (h1 c hc), hcounts c]
    omega

/-- Witness for C2 on a concrete two-by-two grid with one particle. -/
theorem sort_bucket_safety_witness :
    (∀ c, c < 2 * 2 →
      recordedIds (sortKernel (1/2) 2 1 [((1 : ℚ)/4, (1 : ℚ)/4)]) 1 c ≤ 1) ∧
    (∀ c, c < 2 * 2 →
      recordedIds (sortKernel (1/2) 2 1 [((1 : ℚ)/4, (1 : ℚ)/4)]) 1 c =
        min ((sortKernel (1/2) 2 1 [((1 : ℚ)/4, (1 : ℚ)/4)]).counts c) 1) ∧
    (∀ c, (sortKernel (1/2) 2 1 [((1 : ℚ)/4, (1 : ℚ)/4)]).counts c =
      cellOccupancy (1/2) 2 [((1 : ℚ)/4, (1 : ℚ)/4)] c) ∧
    (∀ c, c < 2 * 2 → ∀ s, s < 1 →
      min ((sortKernel (1/2) 2 1 [((1 : ℚ)/4, (1 : ℚ)/4)]).counts c) 1 ≤ s →
      (sortKernel (1/2) 2 1 [((1 : ℚ)/4, (1 : ℚ)/4)]).ids (c * 1 + s) = -1) ∧
    (∀ k, 2 * 2 * 1 ≤ k →
      (sortKernel (1/2) 2 1 [((1 : ℚ)/4, (1 : ℚ)/4)]).ids k = -1) ∧
    (∀ c, c < 2 * 2 → 1 < cellOccupancy (1/2) 2 [((1 : ℚ)/4, (1 : ℚ)/4)] c →
      recordedIds (sortKernel (1/2) 2 1 [((1 : ℚ)/4, (1 : ℚ)/4)]) 1 c = 1) :=
  sort_bucket_safety (1/2) 2 1 [((1 : ℚ)/4, (1 : ℚ)/4)] (by norm_num)

/-- C2 counterexample: with capacity 1, a one-cell grid and two particles in
that cell, the per-cell counter reaches 2 and hence exceeds the capacity,
refuting the claim that the counter never exceeds capacity. -/
theorem sort_counter_exceeds_capacity :
    (sortKernel 1 1 1 [((1 : ℚ)/2, (1 : ℚ)/2), ((1 : ℚ)/2, (1 : ℚ)/2)]).counts 0 = 2 ∧
    1 < (sortKernel 1 1 1 [((1 : ℚ)/2, (1 : ℚ)/2), ((1 : ℚ)/2, (1 : ℚ)/2)]).counts 0 := by
  have h2 : (sortKernel 1 1 1 [((1 : ℚ)/2, (1 : ℚ)/2), ((1 : ℚ)/2, (1 : ℚ)/2)]).counts 0
      = 2 := by
    rw [sortKernel, sortRun_counts]
    norm_num [clearState, particleCell, cellIndex, cellCoord, clampInt,
      List.countP_cons, List.countP_nil]
  exact ⟨h2, by rw [h2]; norm_num⟩

/-- C6: the CLEAR phase is idempotent, two consecutive CLEAR phases with no
intervening upload leave the state identical to one CLEAR, with every count
zero and every id slot at the sentinel `-1`. -/
theorem clear_idempotent (st : GridState) :
    clearOp (clearOp st) = clearOp st ∧
    (∀ k, (clearOp (clearOp st)).counts k = 0) ∧
    (∀ k, (clearOp (clearOp st)).ids k = -1) :=
  ⟨rfl, fun _ => rfl, fun _ => rfl⟩

/-! ### Render instance data (src/render.rs) -/

/-- The per-instance draw data `Instance` of src/render.rs: particle position
and velocity, each a pair of 32-bit floats (float values modelled over ℚ). -/
structure DrawInstance where
  pos : ℚ × ℚ
  vel : ℚ × ℚ
deriving DecidableEq

/-- Vertex attribute formats used by src/render.rs. -/
inductive VertexFormatM where
  | float32x2
  | uint32
deriving DecidableEq

/-- One wgpu vertex attribute: byte offset, shader location, format. -/
structure VertexAttributeM where
  offset : ℕ
  shader_location : ℕ
  format : VertexFormatM
deriving DecidableEq

/-- Vertex step mode: advance per vertex or per instance. -/
inductive StepModeM where
  | perVertex
  | perInstance
deriving DecidableEq

/-- A wgpu vertex buffer layout: stride in bytes, step mode, attributes. -/
structure VertexLayoutM where
  array_stride : ℕ
  step_mode : StepModeM
  attributes : List VertexAttributeM
deriving DecidableEq

/-- The vertex buffer layout returned by `Instance::desc` in src/render.rs:
stride `size_of::<Instance>() = 16` bytes, per-instance stepping, position at
offset 0 and velocity at offset `size_of::<[f32; 2]>() = 8`, both
`Float32x2`. -/
def instanceDesc : VertexLayoutM :=
  { array_stride := 16,
    step_mode := StepModeM.perInstance,
    attributes :=
      [{ offset := 0, shader_location := 2, format := VertexFormatM.float32x2 },
       { offset := 8, shader_location := 3, format := VertexFormatM.float32x2 }] }

/-- The float contents of `bytemuck::cast_slice` over an instance slice:
for each instance its position pair followed by its velocity pair. -/
def instanceFloats (xs : List DrawInstance) : List ℚ :=
  xs.flatMap (fun inst => [inst.pos.1, inst.pos.2, inst.vel.1, inst.vel.2])

/-- The part of `RenderState` that `update_instances` touches: the contents
of the instance buffer. -/
structure RenderStateM where
  instance_buffer : List ℚ
deriving DecidableEq

/-- `RenderState::update_instances` of src/render.rs: write the instance
slice into the instance buffer at offset 0. -/
def update_instances (st : RenderStateM) (instances : List DrawInstance) : RenderStateM :=
  { st with instance_buffer := instanceFloats instances }

theorem instanceFloats_length (xs : List DrawInstance) :
    (instanceFloats xs).length = 4 * xs.length := by
  induction xs with
  | nil => rfl
  | cons x xs ih =>
      simp only [instanceFloats, List.flatMap_cons, List.length_append] at ih ⊢
      simp [ih]
      ring

theorem instanceFloats_chunk :
    ∀ (xs : List DrawInstance) (k : ℕ) (hk : k < xs.length),
      ((instanceFloats xs).drop (4 * k)).take 4 =
        [(xs.get ⟨k, hk⟩).pos.1, (xs.get ⟨k, hk⟩).pos.2,
         (xs.get ⟨k, hk⟩).vel.1, (xs.get ⟨k, hk⟩).vel.2] := by
  intro xs
  induction xs with
  | nil => intro k hk; exact absurd hk (by simp)
  | cons x xs ih =>
      intro k hk
      cases k with
      | zero =>
          simp [instanceFloats, List.flatMap_cons, List.take_succ_cons]
      | succ k =>
          have harith : 4 * (k + 1) = ((((4 * k) + 1) + 1) + 1) + 1 := by ring
          have hk' : k < xs.length := by simpa using Nat.lt_of_succ_lt_succ hk
          calc ((instanceFloats (x :: xs)).drop (4 * (k + 1))).take 4
              = ((instanceFloats xs).drop (4 * k)).take 4 := by
                rw [harith]
                simp [instanceFloats, List.flatMap_cons, List.drop_succ_cons]
            _ = [(xs.get ⟨k, hk'⟩).pos.1, (xs.get ⟨k, hk'⟩).pos.2,
                 (xs.get ⟨k, hk'⟩).vel.1, (xs.get ⟨k, hk'⟩).vel.2] := ih k hk'
            _ = [((x :: xs).get ⟨k + 1, hk⟩).pos.1, ((x :: xs).get ⟨k + 1, hk⟩).pos.2,
                 ((x :: xs).get ⟨k + 1, hk⟩).vel.1, ((x :: xs).get ⟨k + 1, hk⟩).vel.2] := by
                simp [List.get_cons_succ]

/-- C7: the data handed to the rendering collaborator is a snapshot of the
particle array laid out as per-instance draw data: the buffer written by
`update_instances` is the concatenation over particles of position followed
by velocity, particle `k` occupying the four floats starting at `4 * k`, and
the instance layout steps per instance with stride 16 and two `Float32x2`
attributes at byte offsets 0 (position) and 8 (velocity). -/
theorem update_instances_snapshot (st : RenderStateM) (xs : List DrawInstance)
    (k : ℕ) (hk : k < xs.length) :
    (update_instances st xs).instance_buffer = instanceFloats xs ∧
    (update_instances st xs).instance_buffer.length = 4 * xs.length ∧
    (((update_instances st xs).instance_buffer.drop (4 * k)).take 4 =
      [(xs.get ⟨k, hk⟩).pos.1, (xs.get ⟨k, hk⟩).pos.2,
       (xs.get ⟨k, hk⟩).vel.1, (xs.get ⟨k, hk⟩).vel.2]) ∧
    instanceDesc.step_mode = StepModeM.perInstance ∧
    instanceDesc.array_stride = 16 ∧
    instanceDesc.attributes =
      [{ offset := 0, shader_location := 2, format := VertexFormatM.float32x2 },
       { offset := 8, shader_location := 3, format := VertexFormatM.float32x2 }] :=
  ⟨rfl, instanceFloats_length xs, instanceFloats_chunk xs k hk, rfl, rfl, rfl⟩

/-- Witness for C7 on a concrete two-particle snapshot. -/
theorem update_instances_snapshot_witness :
    (update_instances ⟨[]⟩ [⟨(1, 2), (3, 4)⟩, ⟨(5, 6), (7, 8)⟩]).instance_buffer =
      instanceFloats [⟨(1, 2), (3, 4)⟩, ⟨(5, 6), (7, 8)⟩] ∧
    (update_instances ⟨[]⟩ [⟨(1, 2), (3, 4)⟩, ⟨(5, 6), (7, 8)⟩]).instance_buffer.length
      = 4 * (2 : ℕ) ∧
    (((update_instances ⟨[]⟩
        [⟨(1, 2), (3, 4)⟩, ⟨(5, 6), (7, 8)⟩]).instance_buffer.drop (4 * 1)).take 4 =
      [(5 : ℚ), 6, 7, 8]) ∧
    instanceDesc.step_mode = StepModeM.perInstance ∧
    instanceDesc.array_stride = 16 ∧
    instanceDesc.attributes =
      [{ offset := 0, shader_location := 2, format := VertexFormatM.float32x2 },
       { offset := 8, shader_location := 3, format := VertexFormatM.float32x2 }] :=
  update_instances_snapshot ⟨[]⟩ [⟨(1, 2), (3, 4)⟩, ⟨(5, 6), (7, 8)⟩] 1 (by norm_num)

/-! ### Color packing (src/lib.rs and src/render.rs) -/

/-- The `rgba_to_u32` function of src/lib.rs (and identically src/render.rs):
`(r as u32) << 16 | (g as u32) << 8 | (b as u32) << 2`, the alpha argument
unused; `u8` channel values are naturals below 256, and no `u32` overflow can
occur since the result is below `2 ^ 24`. -/
def rgba_to_u32 (r g b _a : ℕ) : ℕ :=
  (r <<< 16) ||| (g <<< 8) ||| (b <<< 2)

/-- C8: `rgba_to_u32` returns `r <<< 16 ||| g <<< 8 ||| b <<< 2`, its result
does not depend on the alpha argument, and for every blue value of at least
64 the shifted blue contribution has a set bit within `[8, 16)`, the bit
range the green channel occupies. -/
theorem rgba_to_u32_spec (r g b a a' : ℕ) (hb : b < 256) :
    rgba_to_u32 r g b a = (r <<< 16) ||| (g <<< 8) ||| (b <<< 2) ∧
    rgba_to_u32 r g b a = rgba_to_u32 r g b a' ∧
    (64 ≤ b → (b <<< 2) >>> 8 ≠ 0 ∧ b <<< 2 < 2 ^ 16) := by
  refine ⟨rfl, rfl, fun h64 => ?_⟩
  rw [Nat.shiftLeft_eq, Nat.shiftRight_eq_div_pow]
  norm_num
  omega

/-- Witness for C8 at `b = 64`. -/
theorem rgba_to_u32_spec_witness :
    rgba_to_u32 1 2 64 0 = (1 <<< 16) ||| (2 <<< 8) ||| (64 <<< 2) ∧
    rgba_to_u32 1 2 64 0 = rgba_to_u32 1 2 64 7 ∧
    (64 ≤ 64 → ((64 : ℕ) <<< 2) >>> 8 ≠ 0 ∧ (64 : ℕ) <<< 2 < 2 ^ 16) :=
  rgba_to_u32_spec 1 2 64 0 7 (by norm_num)

/-! ### Surface resize (src/wgpu_utils.rs, src/lib.rs) -/

/-- A winit physical size: requested width and height in pixels. -/
structure PhysicalSize where
  width : ℕ
  height : ℕ
deriving DecidableEq

/-- The surface configuration of wgpu as carried by `WGPUContext`; fields
other than width and height are opaque to `resize` and modelled as
naturals. -/
structure SurfaceConfiguration where
  usage : ℕ
  format : ℕ
  width : ℕ
  height : ℕ
  present_mode : ℕ
  alpha_mode : ℕ
  view_formats : List ℕ
deriving DecidableEq

/-- `WGPUContext::resize` of src/wgpu_utils.rs (and identically src/lib.rs):
the configuration's width and height are set to the requested size only when
both are positive, otherwise nothing changes; the subsequent
`surface.configure` call is an external effect outside the configuration
record. -/
def resize (config : SurfaceConfiguration) (new_size : PhysicalSize) : SurfaceConfiguration :=
  if 0 < new_size.width ∧ 0 < new_size.height then
    { config with width := new_size.width, height := new_size.height }
  else config

/-- C9: `resize` leaves the whole configuration unchanged when a requested
dimension is zero, and otherwise sets exactly width and height, leaving
usage, format, present mode, alpha mode and view formats unchanged. -/
theorem resize_spec (c : SurfaceConfiguration) (s : PhysicalSize) :
    (s.width = 0 ∨ s.height = 0 → resize c s = c) ∧
    (0 < s.width → 0 < s.height →
      (resize c s).width = s.width ∧ (resize c s).height = s.height ∧
      (resize c s).usage = c.usage ∧ (resize c s).format = c.format ∧
      (resize c s).present_mode = c.present_mode ∧
      (resize c s).alpha_mode = c.alpha_mode ∧
      (resize c s).view_formats = c.view_formats) := by
  constructor
  · intro h
    unfold resize
    rw [if_neg]
    intro hcon
    rcases h with h | h <;> omega
  · intro hw hh
    unfold resize
    rw [if_pos ⟨hw, hh⟩]
    exact ⟨rfl, rfl, rfl, rfl, rfl, rfl, rfl⟩

/-- Witness for C9 at a concrete configuration and a positive size. -/
theorem resize_spec_witness :
    ((⟨8, 9⟩ : PhysicalSize).width = 0 ∨ (⟨8, 9⟩ : PhysicalSize).height = 0 →
      resize ⟨1, 2, 3, 4, 5, 6, [7]⟩ ⟨8, 9⟩ = ⟨1, 2, 3, 4, 5, 6, [7]⟩) ∧
    (0 < (⟨8, 9⟩ : PhysicalSize).width → 0 < (⟨8, 9⟩ : PhysicalSize).height →
      (resize ⟨1, 2, 3, 4, 5, 6, [7]⟩ ⟨8, 9⟩).width = (⟨8, 9⟩ : PhysicalSize).width ∧
      (resize ⟨1, 2, 3, 4, 5, 6, [7]⟩ ⟨8, 9⟩).height = (⟨8, 9⟩ : PhysicalSize).height ∧
      (resize ⟨1, 2, 3, 4, 5, 6, [7]⟩ ⟨8, 9⟩).usage =
        (⟨1, 2, 3, 4, 5, 6, [7]⟩ : SurfaceConfiguration).usage ∧
      (resize ⟨1, 2, 3, 4, 5, 6, [7]⟩ ⟨8, 9⟩).format =
        (⟨1, 2, 3, 4, 5, 6, [7]⟩ : SurfaceConfiguration).format ∧
      (resize ⟨1, 2, 3, 4, 5, 6, [7]⟩ ⟨8, 9⟩).present_mode =
        (⟨1, 2, 3, 4, 5, 6, [7]⟩ : SurfaceConfiguration).present_mode ∧
      (resize ⟨1, 2, 3, 4, 5, 6, [7]⟩ ⟨8, 9⟩).alpha_mode =
        (⟨1, 2, 3, 4, 5, 6, [7]⟩ : SurfaceConfiguration).alpha_mode ∧
      (resize ⟨1, 2, 3, 4, 5, 6, [7]⟩ ⟨8, 9⟩).view_formats =
        (⟨1, 2, 3, 4, 5, 6, [7]⟩ : SurfaceConfiguration).view_formats) :=
  resize_spec ⟨1, 2, 3, 4, 5, 6, [7]⟩ ⟨8, 9⟩

/-! ### Bind group builder (src/wgpu_utils.rs) -/

/-- A bind group layout entry as pushed by `BindGroupBuilder::uniform_buffer`:
binding index and shader-stage visibility (the fixed uniform-buffer type is
implicit). -/
structure BindGroupLayoutEntry where
  binding : ℕ
  visibility : ℕ
deriving DecidableEq

/-- A bind group entry: binding index and the bound buffer resource. -/
structure BindGroupEntry where
  binding : ℕ
  resource : ℕ
deriving DecidableEq

/-- The `BindGroupBuilder` state of src/wgpu_utils.rs: the accumulated layout
entries, group entries and the next binding index. -/
structure BindGroupBuilder where
  layout_entries : List BindGroupLayoutEntry
  group_entries : List BindGroupEntry
  binding : ℕ
deriving DecidableEq

/-- The `Default` state of the builder: empty entry lists, binding 0. -/
def emptyBuilder : BindGroupBuilder := ⟨[], [], 0⟩

/-- `BindGroupBuilder::uniform_buffer`: push one layout entry and one group
entry at the current binding index, then increment the index. -/
def uniform_buffer (b : BindGroupBuilder) (buffer visibility : ℕ) : BindGroupBuilder :=
  { layout_entries := b.layout_entries ++ [{ binding := b.binding, visibility := visibility }],
    group_entries := b.group_entries ++ [{ binding := b.binding, resource := buffer }],
    binding := b.binding + 1 }

/-- `BindGroupBuilder::build`: the produced bind group is made from the
accumulated layout-entry and group-entry lists. -/
def build (b : BindGroupBuilder) : List BindGroupLayoutEntry × List BindGroupEntry :=
  (b.layout_entries, b.group_entries)

/-- The builder obtained from the default state by one `uniform_buffer` call
per element of `calls` (buffer, visibility). -/
def buildFrom (calls : List (ℕ × ℕ)) : BindGroupBuilder :=
  calls.foldl (fun b c => uniform_buffer b c.1 c.2) emptyBuilder

/-- Builder invariant after `n` calls: the counter is `n`, both entry lists
have length `n`, and the `k`-th entry of each carries binding index `k`. -/
def BuilderInv (b : BindGroupBuilder) (n : ℕ) : Prop :=
  b.binding = n ∧ b.layout_entries.length = n ∧ b.group_entries.length = n ∧
  (∀ k, k < n → (b.layout_entries.getD k ⟨0, 0⟩).binding = k) ∧
  (∀ k, k < n → (b.group_entries.getD k ⟨0, 0⟩).binding = k)

theorem getD_append_lt {α : Type} (l l' : List α) (d : α) (k : ℕ) (h : k < l.length) :
    (l ++ l').getD k d = l.getD k d := by
  simp [List.getD, List.getElem?_append_left h]

theorem getD_append_length {α : Type} (l : List α) (e d : α) :
    (l ++ [e]).getD l.length d = e := by
  simp [List.getD, List.getElem?_append_right (le_refl l.length)]

theorem uniform_buffer_inv (b : BindGroupBuilder) (buffer visibility n : ℕ)
    (h : BuilderInv b n) : BuilderInv (uniform_buffer b buffer visibility) (n + 1) := by
  obtain ⟨hb, hl, hg, hkl, hkg⟩ := h
  refine ⟨by simp [uniform_buffer, hb], by simp [uniform_buffer, hl],
    by simp [uniform_buffer, hg], ?_, ?_⟩
  · intro k hk
    unfold uniform_buffer
    rcases Nat.lt_or_ge k n with hlt | hge
    · rw [getD_append_lt _ _ _ k (by omega)]
      exact hkl k hlt
    · have hkn : k = n := by omega
      subst hkn
      rw [← hl, getD_append_length]
      simp [hb, hl]
  · intro k hk
    unfold uniform_buffer
    rcases Nat.lt_or_ge k n with hlt | hge
    · rw [getD_append_lt _ _ _ k (by omega)]
      exact hkg k hlt
    · have hkn : k = n := by omega
      subst hkn
      rw [← hg, getD_append_length]
      simp [hb, hg]

theorem foldl_inv (calls : List (ℕ × ℕ)) :
    ∀ (b : BindGroupBuilder) (n : ℕ), BuilderInv b n →
      BuilderInv (calls.foldl (fun b c => uniform_buffer b c.1 c.2) b) (n + calls.length) := by
  induction calls with
  | nil => intro b n h; simpa using h
  | cons c cs ih =>
      intro b n h
      have := ih (uniform_buffer b c.1 c.2) (n + 1) (uniform_buffer_inv b c.1 c.2 n h)
      simpa [List.foldl_cons, Nat.add_assoc, Nat.add_comm 1 cs.length] using this

theorem buildFrom_inv (calls : List (ℕ × ℕ)) : BuilderInv (buildFrom calls) calls.length := by
  have h0 : BuilderInv emptyBuilder 0 := by
    refine ⟨rfl, rfl, rfl, ?_, ?_⟩ <;> intro k hk <;> omega
  have := foldl_inv calls emptyBuilder 0 h0
  simpa [buildFrom] using this

/-- C10: after any sequence of `uniform_buffer` calls the builder's layout
and group entry lists both have length equal to the number of calls, the
`k`-th entry of each carries binding index `k`, the internal counter equals
the number of calls, and the bind group built from it therefore has matching,
consecutive binding indices in its layout and group entries. -/
theorem bind_group_builder_invariant (calls : List (ℕ × ℕ)) (k : ℕ)
    (hk : k < calls.length) :
    (buildFrom calls).binding = calls.length ∧
    (buildFrom calls).layout_entries.length = calls.length ∧
    (buildFrom calls).group_entries.length = calls.length ∧
    ((buildFrom calls).layout_entries.getD k ⟨0, 0⟩).binding = k ∧
    ((buildFrom calls).group_entries.getD k ⟨0, 0⟩).binding = k ∧
    (build (buildFrom calls)).1.length = (build (buildFrom calls)).2.length ∧
    ((build (buildFrom calls)).1.getD k ⟨0, 0⟩).binding =
      ((build (buildFrom calls)).2.getD k ⟨0, 0⟩).binding := by
  obtain ⟨hb, hl, hg, hkl, hkg⟩ := buildFrom_inv calls
  exact ⟨hb, hl, hg, hkl k hk, hkg k hk, by rw [build, hl, hg],
    by rw [build]; rw [hkl k hk, hkg k hk]⟩

/-- Witness for C10 after two `uniform_buffer` calls, at entry index 1. -/
theorem bind_group_builder_invariant_witness :
    (buildFrom [(1, 2), (3, 4)]).binding = ([(1, 2), (3, 4)] : List (ℕ × ℕ)).length ∧
    (buildFrom [(1, 2), (3, 4)]).layout_entries.length =
      ([(1, 2), (3, 4)] : List (ℕ × ℕ)).length ∧
    (buildFrom [(1, 2), (3, 4)]).group_entries.length =
      ([(1, 2), (3, 4)] : List (ℕ × ℕ)).length ∧
    ((buildFrom [(1, 2), (3, 4)]).layout_entries.getD 1 ⟨0, 0⟩).binding = 1 ∧
    ((buildFrom [(1, 2), (3, 4)]).group_entries.getD 1 ⟨0, 0⟩).binding = 1 ∧
    (build (buildFrom [(1, 2), (3, 4)])).1.length =
      (build (buildFrom [(1, 2), (3, 4)])).2.length ∧
    ((build (buildFrom [(1, 2), (3, 4)])).1.getD 1 ⟨0, 0⟩).binding =
      ((build (buildFrom [(1, 2), (3, 4)])).2.getD 1 ⟨0, 0⟩).binding :=
  bind_group_builder_invariant [(1, 2), (3, 4)] 1 (by norm_num)

end PBF
